import Mathlib

/-!
# MeltForge core: shallow embedding of the validation and conversion pipeline

This file embeds the `mf-core` crate's job validation and conversion pipeline
(`src/mf-core/src/validate.rs`, `src/mf-core/src/convert.rs`,
`src/mf-core/src/error.rs`, `src/mf-core/src/job.rs`) and proves the spec's
claims about it.

Paths are modelled as a flag for absoluteness plus a list of name components,
with Rust's `Path::extension` / `Path::set_extension` / `Path::parent`
semantics reproduced on that representation.  The filesystem is a finite
description: which paths are regular files, which are directories, and which
operations fail (unreadable files, unwritable directories, failing
`create_dir_all` targets).  The external image codec is not modelled: the
orchestrator is embedded up to the point where it hands the job to the codec,
and that hand-off (with the filesystem state at that moment) is the
`codecCall` outcome.  Filesystem mutations performed by the pipeline itself
are recorded as an event list.
-/

/-- A filesystem path: `absolute` is whether it starts at the root, and
`components` are the name components in order.  `⟨false, []⟩` is Rust's
empty path `Path::new("")`, `⟨true, []⟩` is the root `/`. -/
structure FilePath where
  absolute : Bool
  components : List String
deriving DecidableEq, Repr

/-- Rust `Path::parent`: `None` for the root and for the empty path,
otherwise the path with the last component dropped.  In particular the
parent of a bare file name such as `out.png` is the empty path. -/
def fsParent (p : FilePath) : Option FilePath :=
  match p.components with
  | [] => none
  | _ :: _ => some ⟨p.absolute, p.components.dropLast⟩

/-- Split a file name at its last dot: `some (st, ex)` with
`name = st ++ "." ++ ex` and no dot in `ex`, or `none` if the name has
no dot. -/
def splitLastDot : List Char → Option (List Char × List Char)
  | [] => none
  | c :: cs =>
    match splitLastDot cs with
    | some (st, ex) => some (c :: st, ex)
    | none => if c = '.' then some ([], cs) else none

/-- Rust `Path::extension` on a single file name: the part after the last
dot, unless there is no dot or the part before the last dot is empty
(hidden files such as `.gitignore` have no extension). -/
def strExtension (s : String) : Option String :=
  match splitLastDot s.data with
  | none => none
  | some ([], _) => none
  | some (_ :: _, ex) => some ⟨ex⟩

/-- Rust `Path::file_stem` on a single file name: the part before the last
dot when the name has an extension, the whole name otherwise. -/
def fileStemString (s : String) : String :=
  match splitLastDot s.data with
  | none => s
  | some ([], _) => s
  | some (st@(_ :: _), _) => ⟨st⟩

/-- Rust `PathBuf::set_extension` on a single file name (for a non-empty
new extension this is stem ++ "." ++ ext). -/
def setExtString (s ext : String) : String :=
  if ext = "" then fileStemString s else fileStemString s ++ "." ++ ext

/-- Rust `Path::extension` on a path: the extension of the last component,
`none` when there is no component. -/
def fsExtension (p : FilePath) : Option String :=
  match p.components.getLast? with
  | none => none
  | some name => strExtension name

/-- Rust `PathBuf::set_extension` on a path: rewrite the last component;
a path without a file name (root or empty) is left unchanged. -/
def fsSetExtension (p : FilePath) (ext : String) : FilePath :=
  match p.components.getLast? with
  | none => p
  | some name => ⟨p.absolute, p.components.dropLast ++ [setExtString name ext]⟩

/-- Rust `Path::join` with a single file name component. -/
def fsJoin (p : FilePath) (name : String) : FilePath :=
  ⟨p.absolute, p.components ++ [name]⟩

/-- Rust `Path::new(".")`, the fallback directory in `validate_output_dir`. -/
def curDir : FilePath := ⟨false, ["."]⟩

/-- The empty relative path `Path::new("")`. -/
def emptyPath : FilePath := ⟨false, []⟩

/-- All ancestor paths of `p` including `p` itself (what
`fs::create_dir_all` brings into existence as directories). -/
def ancestorsOf (p : FilePath) : List FilePath :=
  (List.range (p.components.length + 1)).map fun i => ⟨p.absolute, p.components.take i⟩

/-- Modelled from the spec: the `Format Model` (`format.rs`) is not under
`src/`; the spec defines Format as the closed enumeration {PNG, JPEG},
which is also the only shape compatible with its uses in `validate.rs`
and `convert.rs`. -/
inductive FormatType where
  | PNG
  | JPEG
deriving DecidableEq, Repr

/-- The `{:?}` rendering of a `FormatType` (derived `Debug` in Rust). -/
def fmtDebug : FormatType → String
  | .PNG => "PNG"
  | .JPEG => "JPEG"

/-- Embeds `error.rs`: `InputError`. -/
inductive InputError where
  | MissingInputFile (p : FilePath)
  | MissingTargetFormat
  | InvalidArgument (s : String)
deriving DecidableEq, Repr

/-- Embeds `error.rs`: `FormatError`. -/
inductive FormatError where
  | UnsupportedInput (s : String)
  | UnsupportedOutput (s : String)
deriving DecidableEq, Repr

/-- Embeds `error.rs`: `ConversionError`. -/
inductive ConversionError where
  | PluginLoadFailed (s : String)
  | ExecutionFailed (s : String)
  | OutputWriteFailed (s : String)
deriving DecidableEq, Repr

/-- Embeds `error.rs`: `IoError`. -/
inductive IoError where
  | ReadError (p : FilePath)
  | WriteError (p : FilePath)
  | PermissionDenied (p : FilePath)
deriving DecidableEq, Repr

/-- Embeds `error.rs`: `MeltforgeError`, the four categories. -/
inductive MeltforgeError where
  | Input (e : InputError)
  | Format (e : FormatError)
  | Conversion (e : ConversionError)
  | Io (e : IoError)
deriving DecidableEq, Repr

/-- Embeds `error.rs`: `MeltforgeError::exit_code`. -/
def MeltforgeError.exit_code : MeltforgeError → Nat
  | .Input _ => 2
  | .Format _ => 3
  | .Conversion _ => 4
  | .Io _ => 5

/-- Embeds `job.rs`: `ConvertJob`. -/
structure ConvertJob where
  input : FilePath
  output : Option FilePath
  format_type : FormatType
deriving DecidableEq, Repr

/-- The failure kind of an underlying OS call (`std::io::ErrorKind`,
collapsed to the distinction the code inspects). -/
inductive IoKind where
  | permissionDenied
  | other
deriving DecidableEq, Repr

/-- A finite description of the filesystem and of which OS calls fail on
it: `files` are the existing regular files, `dirs` the existing
directories; `unreadablePerm` / `unreadableOther` are paths whose
`File::open` fails (with permission-denied resp. another kind);
`unwritableDirs` are directories in which creating the probe file fails;
`mkdirFailPerm` / `mkdirFailOther` are targets on which
`fs::create_dir_all` fails. -/
structure FS where
  files : List FilePath
  dirs : List FilePath
  unreadablePerm : List FilePath
  unreadableOther : List FilePath
  unwritableDirs : List FilePath
  mkdirFailPerm : List FilePath
  mkdirFailOther : List FilePath
deriving DecidableEq, Repr

/-- Rust `Path::exists`.  The empty path `Path::new("")` never names a
filesystem object. -/
def pathExists (fs : FS) (p : FilePath) : Prop :=
  (p.absolute = true ∨ p.components ≠ []) ∧ (p ∈ fs.files ∨ p ∈ fs.dirs)

instance (fs : FS) (p : FilePath) : Decidable (pathExists fs p) := by
  unfold pathExists; infer_instance

/-- Rust `Path::is_file`. -/
def isFile (fs : FS) (p : FilePath) : Prop := p ∈ fs.files

instance (fs : FS) (p : FilePath) : Decidable (isFile fs p) := by
  unfold isFile; infer_instance

/-- Models Rust `str::to_lowercase` (character-wise lowercasing; the
extension strings the pipeline compares are ASCII). -/
def strToLower (s : String) : String := ⟨s.data.map Char.toLower⟩

/-- A filesystem mutation performed by the pipeline itself (the codec's
write is recorded at the moment the codec is invoked). -/
inductive FsEvent where
  | probeWrite (p : FilePath)
  | mkdirAll (p : FilePath)
  | codecWrite (p : FilePath)
deriving DecidableEq, Repr

/-- Embeds `validate.rs`: `validate_path` — the input must exist and be a
regular file. -/
def validate_path (fs : FS) (path : FilePath) : Except InputError Unit :=
  if ¬ pathExists fs path ∨ ¬ isFile fs path then
    .error (.MissingInputFile path)
  else
    .ok ()

/-- The result of `File::open` for reading, per the filesystem
description. -/
def openForRead (fs : FS) (p : FilePath) : Except IoKind Unit :=
  if p ∈ fs.unreadablePerm then .error .permissionDenied
  else if p ∈ fs.unreadableOther then .error .other
  else if isFile fs p then .ok ()
  else .error .other

/-- Embeds `validate.rs`: `ensure_readable` — the input must be openable for
reading; a permission-denied failure is distinguished from other read
failures. -/
def ensure_readable (fs : FS) (path : FilePath) : Except IoError Unit :=
  match openForRead fs path with
  | .ok () => .ok ()
  | .error .permissionDenied => .error (.PermissionDenied path)
  | .error .other => .error (.ReadError path)

/-- Embeds `validate.rs`: `detect_input_format` — map the path's extension,
lowercased, to a format. -/
def detect_input_format (path : FilePath) : Except FormatError FormatType :=
  match fsExtension path with
  | none => .error (.UnsupportedInput "<no extension>")
  | some e =>
    let ext := strToLower e
    if ext = "png" then .ok .PNG
    else if ext = "jpg" ∨ ext = "jpeg" then .ok .JPEG
    else .error (.UnsupportedInput ext)

/-- Embeds `validate.rs`: `validate_input_format` — delegates to
`detect_input_format`. -/
def validate_input_format (path : FilePath) : Except FormatError FormatType :=
  detect_input_format path

/-- Embeds `validate.rs`: `validate_compatibility` — only PNG→JPEG and JPEG→PNG
are supported. -/
def validate_compatibility (input output : FormatType) : Except FormatError Unit :=
  match input, output with
  | .PNG, .JPEG => .ok ()
  | .JPEG, .PNG => .ok ()
  | a, b =>
    .error (.UnsupportedOutput (fmtDebug a ++ " → " ++ fmtDebug b ++ " not supported yet"))

/-- Embeds `validate.rs`: `validate_output_dir` — the output path must not exist,
its parent directory (falling back to `.` when `parent()` is `None`) must
exist, and a probe file must be creatable in it.  The second component
records the probe write when it happens. -/
def validate_output_dir (fs : FS) (output_path : FilePath) :
    Except IoError Unit × List FsEvent :=
  if pathExists fs output_path then
    (.error (.WriteError output_path), [])
  else
    let dir := (fsParent output_path).getD curDir
    if ¬ pathExists fs dir then
      (.error (.WriteError output_path), [])
    else
      let test_path := fsJoin dir ".meltforge_write_test"
      if dir ∈ fs.unwritableDirs then
        (.error (.PermissionDenied dir), [])
      else
        (.ok (), [.probeWrite test_path])

/-- Embeds `validate.rs`: `validate_job` — the five checks in source order,
short-circuiting on the first failure, each error lifted into its
`MeltforgeError` category by the `From` impls. -/
def validate_job (fs : FS) (cj : ConvertJob) :
    Except MeltforgeError Unit × List FsEvent :=
  match validate_path fs cj.input with
  | .error e => (.error (.Input e), [])
  | .ok () =>
    match ensure_readable fs cj.input with
    | .error e => (.error (.Io e), [])
    | .ok () =>
      match validate_input_format cj.input with
      | .error e => (.error (.Format e), [])
      | .ok input_fmt =>
        match validate_compatibility input_fmt cj.format_type with
        | .error e => (.error (.Format e), [])
        | .ok () =>
          match cj.output with
          | none => (.ok (), [])
          | some out =>
            match validate_output_dir fs out with
            | (.error e, evs) => (.error (.Io e), evs)
            | (.ok (), evs) => (.ok (), evs)

/-- Embeds `convert.rs`: `derive_output_path` — replace the input's extension with
the canonical extension of the target format. -/
def derive_output_path (input : FilePath) (target : FormatType) : FilePath :=
  let ext := match target with
    | .JPEG => "jpg"
    | .PNG => "png"
  fsSetExtension input ext

/-- The canonical extension of a target format (the string
`derive_output_path` substitutes). -/
def canonExt : FormatType → String
  | .JPEG => "jpg"
  | .PNG => "png"

/-- Embeds `convert.rs`: `map_io_write` — classify a write-side I/O failure. -/
def map_io_write (k : IoKind) (p : FilePath) : MeltforgeError :=
  match k with
  | .permissionDenied => .Io (.PermissionDenied p)
  | .other => .Io (.WriteError p)

/-- Models `std::fs::create_dir_all`: a no-op on the empty path; otherwise it
either fails (per the filesystem description) or brings the target and
all its ancestors into existence as directories.  The event list records
the attempt when the call actually creates directories. -/
def createDirAll (fs : FS) (p : FilePath) : Except IoKind FS × List FsEvent :=
  if p = emptyPath then (.ok fs, [])
  else if p ∈ fs.mkdirFailPerm then (.error .permissionDenied, [.mkdirAll p])
  else if p ∈ fs.mkdirFailOther then (.error .other, [.mkdirAll p])
  else (.ok { fs with dirs := fs.dirs ++ ancestorsOf p }, [.mkdirAll p])

/-- Embeds `convert.rs`: the output-path resolution step of `convert` — the
caller-supplied path if present, otherwise the derived one. -/
def resolveOutput (cj : ConvertJob) : FilePath :=
  (cj.output).getD (derive_output_path cj.input cj.format_type)

/-- Embeds `convert.rs`: the `if let Some(parent) = output_path.parent()` block of
`convert` — create the parent directory chain when the parent does not
exist, mapping a failure through `map_io_write`. -/
def ensureParentDir (fs : FS) (out : FilePath) :
    Except MeltforgeError (FS × List FsEvent) :=
  match fsParent out with
  | none => .ok (fs, [])
  | some parent =>
    if pathExists fs parent then .ok (fs, [])
    else
      match createDirAll fs parent with
      | (.ok fs2, evs) => .ok (fs2, evs)
      | (.error k, _) => .error (map_io_write k parent)

/-- The observable outcome of `convert` up to the external codec: either a
pipeline failure, or the codec invocation about to run — which direction,
which output path, and the filesystem state immediately before the codec
write begins.  On codec success `convert` returns `output_path`. -/
inductive ConvertOutcome where
  | failed (e : MeltforgeError)
  | codecCall (input_fmt target : FormatType) (output_path : FilePath) (fsBefore : FS)
deriving DecidableEq, Repr

/-- Whether an outcome reached the codec. -/
def ConvertOutcome.isCodecCall : ConvertOutcome → Bool
  | .failed _ => false
  | .codecCall _ _ _ _ => true

/-- Embeds `convert.rs`: the `match (input_fmt, cj.format_type)` dispatch of
`convert` — the two supported directions call the codec; any other pair is
reported as `UnsupportedOutput` naming both formats. -/
def convertDispatch (input_fmt target : FormatType) (output_path : FilePath)
    (fs : FS) (evs : List FsEvent) : ConvertOutcome × List FsEvent :=
  match input_fmt, target with
  | .PNG, .JPEG => (.codecCall .PNG .JPEG output_path fs, evs ++ [.codecWrite output_path])
  | .JPEG, .PNG => (.codecCall .JPEG .PNG output_path fs, evs ++ [.codecWrite output_path])
  | a, b =>
    (.failed (.Format (.UnsupportedOutput
      (fmtDebug a ++ " → " ++ fmtDebug b ++ " not supported yet"))), evs)

/-- Embeds `convert.rs`: `convert` — validate, resolve the output path, ensure
the parent directory, re-detect the input format, and dispatch to the
codec. -/
def convert (fs : FS) (cj : ConvertJob) : ConvertOutcome × List FsEvent :=
  match validate_job fs cj with
  | (.error e, evs) => (.failed e, evs)
  | (.ok (), evs) =>
    let output_path := resolveOutput cj
    match ensureParentDir fs output_path with
    | .error e => (.failed e, evs)
    | .ok (fs2, evs2) =>
      match detect_input_format cj.input with
      | .error e => (.failed (.Format e), evs ++ evs2)
      | .ok input_fmt =>
        convertDispatch input_fmt cj.format_type output_path fs2 (evs ++ evs2)

lemma splitLastDot_append (l : List Char) (st ex : List Char)
    (h : splitLastDot l = some (st, ex)) : l = st ++ '.' :: ex := by
  induction l generalizing st ex with
  | nil => simp [splitLastDot] at h
  | cons c cs ih =>
    unfold splitLastDot at h
    cases hcs : splitLastDot cs with
    | some pr =>
      obtain ⟨st2, ex2⟩ := pr
      rw [hcs] at h
      simp only [Option.some.injEq, Prod.mk.injEq] at h
      obtain ⟨h1, h2⟩ := h
      subst h1; subst h2
      simpa using ih st2 ex2 hcs
    | none =>
      rw [hcs] at h
      by_cases hc : c = '.'
      · rw [if_pos hc] at h
        simp only [Option.some.injEq, Prod.mk.injEq] at h
        obtain ⟨h1, h2⟩ := h
        subst h1; subst h2; subst hc; rfl
      · rw [if_neg hc] at h
        simp at h

lemma strExtension_inv (s e : String) (h : strExtension s = some e) :
    ∃ st ex, splitLastDot s.data = some (st, ex) ∧ st ≠ [] ∧ e = ⟨ex⟩ := by
  unfold strExtension at h
  cases hs : splitLastDot s.data with
  | none => rw [hs] at h; simp at h
  | some pr =>
    obtain ⟨st, ex⟩ := pr
    rw [hs] at h
    cases st with
    | nil => simp at h
    | cons c cs =>
      simp only [Option.some.injEq] at h
      exact ⟨c :: cs, ex, rfl, by simp, h.symm⟩

lemma detect_ok_inv (p : FilePath) (f : FormatType)
    (h : detect_input_format p = .ok f) :
    ∃ e, fsExtension p = some e ∧
      ((f = .PNG ∧ strToLower e = "png") ∨
       (f = .JPEG ∧ (strToLower e = "jpg" ∨ strToLower e = "jpeg"))) := by
  unfold detect_input_format at h
  cases hx : fsExtension p with
  | none => rw [hx] at h; simp at h
  | some e =>
    rw [hx] at h
    dsimp only at h
    by_cases h1 : strToLower e = "png"
    · rw [if_pos h1] at h
      simp only [Except.ok.injEq] at h
      exact ⟨e, rfl, .inl ⟨h.symm, h1⟩⟩
    · rw [if_neg h1] at h
      by_cases h2 : strToLower e = "jpg" ∨ strToLower e = "jpeg"
      · rw [if_pos h2] at h
        simp only [Except.ok.injEq] at h
        exact ⟨e, rfl, .inr ⟨h.symm, h2⟩⟩
      · rw [if_neg h2] at h
        simp at h

lemma validate_path_ok_inv (fs : FS) (p : FilePath)
    (h : validate_path fs p = .ok ()) : pathExists fs p ∧ isFile fs p := by
  unfold validate_path at h
  split_ifs at h with hc
  push_neg at hc
  exact hc

lemma validate_path_of_not_exists (fs : FS) (p : FilePath)
    (h : ¬ pathExists fs p) :
    validate_path fs p = .error (.MissingInputFile p) := by
  unfold validate_path
  rw [if_pos (Or.inl h)]

lemma validate_job_step1_err (fs : FS) (cj : ConvertJob) (e : InputError)
    (h : validate_path fs cj.input = .error e) :
    validate_job fs cj = (.error (.Input e), []) := by
  unfold validate_job
  rw [h]

lemma validate_job_step2_err (fs : FS) (cj : ConvertJob) (e : IoError)
    (h1 : validate_path fs cj.input = .ok ())
    (h2 : ensure_readable fs cj.input = .error e) :
    validate_job fs cj = (.error (.Io e), []) := by
  unfold validate_job
  simp only [h1, h2]

lemma validate_job_step3_err (fs : FS) (cj : ConvertJob) (e : FormatError)
    (h1 : validate_path fs cj.input = .ok ())
    (h2 : ensure_readable fs cj.input = .ok ())
    (h3 : validate_input_format cj.input = .error e) :
    validate_job fs cj = (.error (.Format e), []) := by
  unfold validate_job
  simp only [h1, h2, h3]

lemma validate_job_step4_err (fs : FS) (cj : ConvertJob) (f : FormatType) (e : FormatError)
    (h1 : validate_path fs cj.input = .ok ())
    (h2 : ensure_readable fs cj.input = .ok ())
    (h3 : validate_input_format cj.input = .ok f)
    (h4 : validate_compatibility f cj.format_type = .error e) :
    validate_job fs cj = (.error (.Format e), []) := by
  unfold validate_job
  simp only [h1, h2, h3, h4]

lemma validate_job_none_ok (fs : FS) (cj : ConvertJob) (f : FormatType)
    (h1 : validate_path fs cj.input = .ok ())
    (h2 : ensure_readable fs cj.input = .ok ())
    (h3 : validate_input_format cj.input = .ok f)
    (h4 : validate_compatibility f cj.format_type = .ok ())
    (h5 : cj.output = none) :
    validate_job fs cj = (.ok (), []) := by
  unfold validate_job
  simp only [h1, h2, h3, h4, h5]

lemma validate_job_step5_err (fs : FS) (cj : ConvertJob) (f : FormatType)
    (out : FilePath) (e : IoError) (evs : List FsEvent)
    (h1 : validate_path fs cj.input = .ok ())
    (h2 : ensure_readable fs cj.input = .ok ())
    (h3 : validate_input_format cj.input = .ok f)
    (h4 : validate_compatibility f cj.format_type = .ok ())
    (h5 : cj.output = some out)
    (h6 : validate_output_dir fs out = (.error e, evs)) :
    validate_job fs cj = (.error (.Io e), evs) := by
  unfold validate_job
  simp only [h1, h2, h3, h4, h5, h6]

lemma validate_job_step5_ok (fs : FS) (cj : ConvertJob) (f : FormatType)
    (out : FilePath) (evs : List FsEvent)
    (h1 : validate_path fs cj.input = .ok ())
    (h2 : ensure_readable fs cj.input = .ok ())
    (h3 : validate_input_format cj.input = .ok f)
    (h4 : validate_compatibility f cj.format_type = .ok ())
    (h5 : cj.output = some out)
    (h6 : validate_output_dir fs out = (.ok (), evs)) :
    validate_job fs cj = (.ok (), evs) := by
  unfold validate_job
  simp only [h1, h2, h3, h4, h5, h6]

lemma validate_compatibility_ok_inv (a b : FormatType)
    (h : validate_compatibility a b = .ok ()) :
    (a = .PNG ∧ b = .JPEG) ∨ (a = .JPEG ∧ b = .PNG) := by
  cases a <;> cases b <;> simp_all [validate_compatibility]

lemma validate_job_ok_inv (fs : FS) (cj : ConvertJob)
    (h : (validate_job fs cj).1 = .ok ()) :
    validate_path fs cj.input = .ok () ∧
    ensure_readable fs cj.input = .ok () ∧
    ∃ f, validate_input_format cj.input = .ok f ∧
      validate_compatibility f cj.format_type = .ok () ∧
      ∀ out, cj.output = some out → (validate_output_dir fs out).1 = .ok () := by
  unfold validate_job at h
  cases h1 : validate_path fs cj.input with
  | error e => simp only [h1] at h; simp at h
  | ok u =>
    obtain ⟨⟩ := u
    simp only [h1] at h
    cases h2 : ensure_readable fs cj.input with
    | error e => simp only [h2] at h; simp at h
    | ok u =>
      obtain ⟨⟩ := u
      simp only [h2] at h
      cases h3 : validate_input_format cj.input with
      | error e => simp only [h3] at h; simp at h
      | ok f =>
        simp only [h3] at h
        cases h4 : validate_compatibility f cj.format_type with
        | error e => simp only [h4] at h; simp at h
        | ok u =>
          obtain ⟨⟩ := u
          simp only [h4] at h
          refine ⟨rfl, rfl, f, rfl, h4, ?_⟩
          intro out hout
          simp only [hout] at h
          cases h6 : validate_output_dir fs out with
          | mk r evs =>
            simp only [h6] at h
            cases r with
            | error e => simp at h
            | ok u => obtain ⟨⟩ := u; rfl

lemma convert_of_validate_err (fs : FS) (cj : ConvertJob) (e : MeltforgeError)
    (evs : List FsEvent) (h : validate_job fs cj = (.error e, evs)) :
    convert fs cj = (.failed e, evs) := by
  unfold convert
  simp only [h]

lemma fsParent_some_inv (p q : FilePath) (h : fsParent p = some q) :
    q.absolute = p.absolute ∧ q.components = p.components.dropLast ∧
    p.components ≠ [] := by
  unfold fsParent at h
  cases hc : p.components with
  | nil => rw [hc] at h; simp at h
  | cons c cs =>
    rw [hc] at h
    simp only [Option.some.injEq] at h
    subst h
    simp [hc]

lemma mem_ancestorsOf_length (q p : FilePath) (h : q ∈ ancestorsOf p) :
    q.components.length ≤ p.components.length := by
  unfold ancestorsOf at h
  simp only [List.mem_map, List.mem_range] at h
  obtain ⟨i, _, rfl⟩ := h
  simp [List.length_take]

lemma ensureParentDir_preserves_not_exists (fs : FS) (out : FilePath)
    (fs2 : FS) (evs : List FsEvent)
    (h : ensureParentDir fs out = .ok (fs2, evs))
    (hne : ¬ pathExists fs out) : ¬ pathExists fs2 out := by
  unfold ensureParentDir at h
  cases hp : fsParent out with
  | none =>
    simp only [hp] at h
    simp only [Except.ok.injEq, Prod.mk.injEq] at h
    rw [← h.1]
    exact hne
  | some parent =>
    simp only [hp] at h
    by_cases hex : pathExists fs parent
    · rw [if_pos hex] at h
      simp only [Except.ok.injEq, Prod.mk.injEq] at h
      rw [← h.1]
      exact hne
    · rw [if_neg hex] at h
      unfold createDirAll at h
      by_cases hemp : parent = emptyPath
      · rw [if_pos hemp] at h
        simp only [Except.ok.injEq, Prod.mk.injEq] at h
        rw [← h.1]
        exact hne
      · rw [if_neg hemp] at h
        by_cases hm1 : parent ∈ fs.mkdirFailPerm
        · rw [if_pos hm1] at h; simp at h
        · rw [if_neg hm1] at h
          by_cases hm2 : parent ∈ fs.mkdirFailOther
          · rw [if_pos hm2] at h; simp at h
          · rw [if_neg hm2] at h
            simp only [Except.ok.injEq, Prod.mk.injEq] at h
            rw [← h.1]
            obtain ⟨-, hpc, hnil⟩ := fsParent_some_inv out parent hp
            intro hx
            obtain ⟨hguard, hmem⟩ := hx
            simp only [List.mem_append] at hmem
            rcases hmem with hf | hd | ha
            · exact hne ⟨hguard, Or.inl hf⟩
            · exact hne ⟨hguard, Or.inr hd⟩
            · have hlen := mem_ancestorsOf_length out parent ha
              rw [hpc, List.length_dropLast] at hlen
              have : 0 < out.components.length := List.length_pos.mpr hnil
              omega

lemma convert_codecCall_inv (fs : FS) (cj : ConvertJob) (a b : FormatType)
    (out : FilePath) (fs2 : FS)
    (h : (convert fs cj).1 = .codecCall a b out fs2) :
    (validate_job fs cj).1 = .ok () ∧ out = resolveOutput cj ∧
    ∃ evs2, ensureParentDir fs (resolveOutput cj) = .ok (fs2, evs2) := by
  unfold convert at h
  cases hv : validate_job fs cj with
  | mk r evs =>
    simp only [hv] at h
    cases r with
    | error e => simp at h
    | ok u =>
      obtain ⟨⟩ := u
      refine ⟨rfl, ?_⟩
      dsimp only at h
      cases hp : ensureParentDir fs (resolveOutput cj) with
      | error e => simp only [hp] at h; simp at h
      | ok pr =>
        obtain ⟨fs3, evs2⟩ := pr
        simp only [hp] at h
        cases hd : detect_input_format cj.input with
        | error e => simp only [hd] at h; simp at h
        | ok fmt =>
          simp only [hd] at h
          cases fmt with
          | PNG =>
            cases hft : cj.format_type with
            | PNG => simp [hft, convertDispatch] at h
            | JPEG =>
              rw [hft] at h
              simp only [convertDispatch] at h
              injection h with h1 h2 h3 h4
              exact ⟨h3.symm, evs2, by rw [← h4]⟩
          | JPEG =>
            cases hft : cj.format_type with
            | JPEG => simp [hft, convertDispatch] at h
            | PNG =>
              rw [hft] at h
              simp only [convertDispatch] at h
              injection h with h1 h2 h3 h4
              exact ⟨h3.symm, evs2, by rw [← h4]⟩

lemma validate_output_dir_of_exists (fs : FS) (out : FilePath)
    (h : pathExists fs out) :
    validate_output_dir fs out = (.error (.WriteError out), []) := by
  unfold validate_output_dir
  rw [if_pos h]

lemma validate_output_dir_of_parent_missing (fs : FS) (out : FilePath)
    (h1 : ¬ pathExists fs out)
    (h2 : ¬ pathExists fs ((fsParent out).getD curDir)) :
    validate_output_dir fs out = (.error (.WriteError out), []) := by
  unfold validate_output_dir
  rw [if_neg h1]
  dsimp only
  rw [if_pos h2]

lemma validate_output_dir_of_probe_denied (fs : FS) (out : FilePath)
    (h1 : ¬ pathExists fs out)
    (h2 : pathExists fs ((fsParent out).getD curDir))
    (h3 : (fsParent out).getD curDir ∈ fs.unwritableDirs) :
    validate_output_dir fs out =
      (.error (.PermissionDenied ((fsParent out).getD curDir)), []) := by
  unfold validate_output_dir
  rw [if_neg h1]
  dsimp only
  rw [if_neg (not_not_intro h2)]
  rw [if_pos h3]

lemma validate_output_dir_no_codec (fs : FS) (out : FilePath) (q : FilePath) :
    FsEvent.codecWrite q ∉ (validate_output_dir fs out).2 := by
  unfold validate_output_dir
  by_cases h1 : pathExists fs out
  · rw [if_pos h1]; simp
  · rw [if_neg h1]
    dsimp only
    by_cases h2 : ¬ pathExists fs ((fsParent out).getD curDir)
    · rw [if_pos h2]; simp
    · rw [if_neg h2]
      by_cases h3 : (fsParent out).getD curDir ∈ fs.unwritableDirs
      · rw [if_pos h3]; simp
      · rw [if_neg h3]; simp

lemma validate_job_no_codec (fs : FS) (cj : ConvertJob) (q : FilePath) :
    FsEvent.codecWrite q ∉ (validate_job fs cj).2 := by
  unfold validate_job
  cases h1 : validate_path fs cj.input with
  | error e => simp [h1]
  | ok u =>
    obtain ⟨⟩ := u
    cases h2 : ensure_readable fs cj.input with
    | error e => simp [h1, h2]
    | ok u =>
      obtain ⟨⟩ := u
      cases h3 : validate_input_format cj.input with
      | error e => simp [h1, h2, h3]
      | ok f =>
        cases h4 : validate_compatibility f cj.format_type with
        | error e => simp [h1, h2, h3, h4]
        | ok u =>
          obtain ⟨⟩ := u
          cases h5 : cj.output with
          | none => simp [h1, h2, h3, h4, h5]
          | some out =>
            cases h6 : validate_output_dir fs out with
            | mk r evs =>
              have hno := validate_output_dir_no_codec fs out q
              rw [h6] at hno
              simp only [h1, h2, h3, h4, h5, h6]
              cases r with
              | error e => simpa using hno
              | ok u => obtain ⟨⟩ := u; simpa using hno

/-- C4: `detect_input_format` compares the extension case-insensitively,
mapping "png" to PNG and "jpg"/"jpeg" to JPEG; any other extension yields
an unsupported-input-format error carrying the (lowercased) offending
extension, and a path with no extension yields the sentinel
"<no extension>" marker. -/
theorem C4_detect_input_format_mapping (p : FilePath) :
    (fsExtension p = none →
      detect_input_format p = .error (.UnsupportedInput "<no extension>")) ∧
    ∀ e, fsExtension p = some e →
      ((strToLower e = "png" → detect_input_format p = .ok .PNG) ∧
       (strToLower e = "jpg" ∨ strToLower e = "jpeg" →
          detect_input_format p = .ok .JPEG) ∧
       (strToLower e ≠ "png" → strToLower e ≠ "jpg" → strToLower e ≠ "jpeg" →
          detect_input_format p = .error (.UnsupportedInput (strToLower e)))) := by
  constructor
  · intro h
    unfold detect_input_format
    rw [h]
  · intro e he
    refine ⟨?_, ?_, ?_⟩
    · intro h1
      unfold detect_input_format
      rw [he]
      dsimp only
      rw [if_pos h1]
    · intro h2
      unfold detect_input_format
      rw [he]
      dsimp only
      by_cases h1 : strToLower e = "png"
      · rw [h1] at h2
        rcases h2 with h2 | h2 <;> simp at h2
      · rw [if_neg h1, if_pos h2]
    · intro hn1 hn2 hn3
      unfold detect_input_format
      rw [he]
      dsimp only
      rw [if_neg hn1, if_neg (not_or.mpr ⟨hn2, hn3⟩)]

theorem C4_witness :
    detect_input_format ⟨false, ["photo.PnG"]⟩ = .ok .PNG :=
  ((C4_detect_input_format_mapping ⟨false, ["photo.PnG"]⟩).2 "PnG" rfl).1 (by decide)

/-- C8: in the dispatch step of `convert`, every format pair other than
(PNG, JPEG) and (JPEG, PNG) is reported as an `UnsupportedOutput` error
naming both formats (the embedding is a total function, so no panic is
possible), with no codec invocation recorded. -/
theorem C8_dispatch_unsupported (a b : FormatType) (out : FilePath) (fs : FS)
    (evs : List FsEvent)
    (h : ¬ ((a = .PNG ∧ b = .JPEG) ∨ (a = .JPEG ∧ b = .PNG))) :
    convertDispatch a b out fs evs =
      (.failed (.Format (.UnsupportedOutput
        (fmtDebug a ++ " → " ++ fmtDebug b ++ " not supported yet"))), evs) := by
  cases a <;> cases b
  · rfl
  · exact absurd (Or.inl ⟨rfl, rfl⟩) h
  · exact absurd (Or.inr ⟨rfl, rfl⟩) h
  · rfl

theorem C8_witness :
    convertDispatch .PNG .PNG emptyPath ⟨[], [], [], [], [], [], []⟩ [] =
      (.failed (.Format (.UnsupportedOutput "PNG → PNG not supported yet")), []) :=
  C8_dispatch_unsupported .PNG .PNG emptyPath ⟨[], [], [], [], [], [], []⟩ [] (by decide)

/-- C10: an explicit output path that is a bare file name is rejected with
`WriteError` even when the current directory exists and is writable,
because `Path::parent` yields the empty path for such a name, the empty
path never exists, and the `.` fallback is only taken when `parent()` is
`None`. -/
theorem C10_bare_filename_rejected (fs : FS) (name : String)
    (hcur : pathExists fs curDir)
    (hw : curDir ∉ fs.unwritableDirs)
    (hne : ¬ pathExists fs ⟨false, [name]⟩) :
    fsParent ⟨false, [name]⟩ = some emptyPath ∧
    ¬ pathExists fs emptyPath ∧
    validate_output_dir fs ⟨false, [name]⟩ =
      (.error (.WriteError ⟨false, [name]⟩), []) := by
  have hpar : fsParent ⟨false, [name]⟩ = some emptyPath := rfl
  have hemp : ¬ pathExists fs emptyPath := by
    intro h
    obtain ⟨hg, -⟩ := h
    simp [emptyPath] at hg
  refine ⟨hpar, hemp, ?_⟩
  apply validate_output_dir_of_parent_missing fs _ hne
  simp only [hpar, Option.getD_some]
  exact hemp

theorem C10_witness :
    fsParent ⟨false, ["out.png"]⟩ = some emptyPath ∧
    ¬ pathExists ⟨[], [curDir], [], [], [], [], []⟩ emptyPath ∧
    validate_output_dir ⟨[], [curDir], [], [], [], [], []⟩ ⟨false, ["out.png"]⟩ =
      (.error (.WriteError ⟨false, ["out.png"]⟩), []) :=
  C10_bare_filename_rejected ⟨[], [curDir], [], [], [], [], []⟩ "out.png"
    (by decide) (by decide) (by decide)

/-- C5: `validate_compatibility` succeeds exactly on the pairs
(PNG, JPEG) and (JPEG, PNG); consequently a same-format request never
reaches the codec, and when the input file itself passes the existence
and readability checks the failure is a Format-category
`UnsupportedOutput` error. -/
theorem C5_compatibility_pairs (fs : FS) (cj : ConvertJob) (f : FormatType) :
    (∀ a b : FormatType, validate_compatibility a b = .ok () ↔
        ((a = .PNG ∧ b = .JPEG) ∨ (a = .JPEG ∧ b = .PNG))) ∧
    (detect_input_format cj.input = .ok f → cj.format_type = f →
      ((convert fs cj).1.isCodecCall = false ∧
       (validate_path fs cj.input = .ok () → ensure_readable fs cj.input = .ok () →
         ∃ s, (convert fs cj).1 = .failed (.Format (.UnsupportedOutput s))))) := by
  constructor
  · intro a b
    cases a <;> cases b <;> simp [validate_compatibility]
  · intro hdet hfmt
    have hvf : validate_input_format cj.input = .ok f := hdet
    have hcompat : validate_compatibility f cj.format_type =
        .error (.UnsupportedOutput
          (fmtDebug f ++ " → " ++ fmtDebug f ++ " not supported yet")) := by
      rw [hfmt]
      cases f <;> rfl
    cases h1 : validate_path fs cj.input with
    | error e =>
      have hv := validate_job_step1_err fs cj e h1
      have hc := convert_of_validate_err fs cj _ _ hv
      refine ⟨by rw [hc]; rfl, ?_⟩
      intro h1' _
      simp at h1'
    | ok u =>
      obtain ⟨⟩ := u
      cases h2 : ensure_readable fs cj.input with
      | error e =>
        have hv := validate_job_step2_err fs cj e h1 h2
        have hc := convert_of_validate_err fs cj _ _ hv
        refine ⟨by rw [hc]; rfl, ?_⟩
        intro _ h2'
        simp at h2'
      | ok u =>
        obtain ⟨⟩ := u
        have hv := validate_job_step4_err fs cj f _ h1 h2 hvf hcompat
        have hc := convert_of_validate_err fs cj _ _ hv
        exact ⟨by rw [hc]; rfl, fun _ _ => ⟨_, by rw [hc]⟩⟩

theorem C5_witness :
    ∃ s, (convert ⟨[⟨false, ["photo.png"]⟩], [], [], [], [], [], []⟩
        ⟨⟨false, ["photo.png"]⟩, none, .PNG⟩).1 =
      .failed (.Format (.UnsupportedOutput s)) :=
  ((C5_compatibility_pairs ⟨[⟨false, ["photo.png"]⟩], [], [], [], [], [], []⟩
      ⟨⟨false, ["photo.png"]⟩, none, .PNG⟩ .PNG).2 rfl rfl).2 rfl rfl

/-- C2: `convert` reaches the codec only when `validate_job` returned Ok;
whenever validation fails, `convert` returns exactly the validation error
and no codec write is recorded. -/
theorem C2_codec_only_after_validation (fs : FS) (cj : ConvertJob) :
    (∀ a b out fs2, (convert fs cj).1 = .codecCall a b out fs2 →
        (validate_job fs cj).1 = .ok ()) ∧
    (∀ e evs, validate_job fs cj = (.error e, evs) →
        convert fs cj = (.failed e, evs) ∧
        ∀ q, FsEvent.codecWrite q ∉ evs) := by
  constructor
  · intro a b out fs2 h
    exact (convert_codecCall_inv fs cj a b out fs2 h).1
  · intro e evs h
    refine ⟨convert_of_validate_err fs cj e evs h, ?_⟩
    intro q
    have hq := validate_job_no_codec fs cj q
    rw [h] at hq
    simpa using hq

theorem C2_witness :
    convert ⟨[], [], [], [], [], [], []⟩ ⟨⟨false, ["missing.png"]⟩, none, .JPEG⟩ =
      (.failed (.Input (.MissingInputFile ⟨false, ["missing.png"]⟩)), []) :=
  ((C2_codec_only_after_validation ⟨[], [], [], [], [], [], []⟩
      ⟨⟨false, ["missing.png"]⟩, none, .JPEG⟩).2 _ _ rfl).1

/-- C3: `validate_job` runs its five checks in source order — existence,
readability, input-format detection, pair compatibility, and (only for an
explicit output path) output-location checks — returning the first failing
check's error in its category without consulting later checks; a
nonexistent input yields `MissingInputFile` (Input category) with no
filesystem write recorded, also through `convert`. -/
theorem C3_validate_job_check_order (fs : FS) (cj : ConvertJob) :
    (¬ pathExists fs cj.input →
        validate_job fs cj = (.error (.Input (.MissingInputFile cj.input)), []) ∧
        convert fs cj = (.failed (.Input (.MissingInputFile cj.input)), [])) ∧
    (∀ e, validate_path fs cj.input = .error e →
        validate_job fs cj = (.error (.Input e), [])) ∧
    (∀ e, validate_path fs cj.input = .ok () →
        ensure_readable fs cj.input = .error e →
        validate_job fs cj = (.error (.Io e), [])) ∧
    (∀ e, validate_path fs cj.input = .ok () →
        ensure_readable fs cj.input = .ok () →
        validate_input_format cj.input = .error e →
        validate_job fs cj = (.error (.Format e), [])) ∧
    (∀ f e, validate_path fs cj.input = .ok () →
        ensure_readable fs cj.input = .ok () →
        validate_input_format cj.input = .ok f →
        validate_compatibility f cj.format_type = .error e →
        validate_job fs cj = (.error (.Format e), [])) ∧
    (∀ f, validate_path fs cj.input = .ok () →
        ensure_readable fs cj.input = .ok () →
        validate_input_format cj.input = .ok f →
        validate_compatibility f cj.format_type = .ok () →
        cj.output = none →
        validate_job fs cj = (.ok (), [])) ∧
    (∀ f out, validate_path fs cj.input = .ok () →
        ensure_readable fs cj.input = .ok () →
        validate_input_format cj.input = .ok f →
        validate_compatibility f cj.format_type = .ok () →
        cj.output = some out →
        (∀ e evs, validate_output_dir fs out = (.error e, evs) →
            validate_job fs cj = (.error (.Io e), evs)) ∧
        (∀ evs, validate_output_dir fs out = (.ok (), evs) →
            validate_job fs cj = (.ok (), evs))) := by
  refine ⟨?_, ?_, ?_, ?_, ?_, ?_, ?_⟩
  · intro h
    have h1 := validate_path_of_not_exists fs cj.input h
    have hv := validate_job_step1_err fs cj _ h1
    exact ⟨hv, convert_of_validate_err fs cj _ _ hv⟩
  · exact fun e h => validate_job_step1_err fs cj e h
  · exact fun e h1 h2 => validate_job_step2_err fs cj e h1 h2
  · exact fun e h1 h2 h3 => validate_job_step3_err fs cj e h1 h2 h3
  · exact fun f e h1 h2 h3 h4 => validate_job_step4_err fs cj f e h1 h2 h3 h4
  · exact fun f h1 h2 h3 h4 h5 => validate_job_none_ok fs cj f h1 h2 h3 h4 h5
  · exact fun f out h1 h2 h3 h4 h5 =>
      ⟨fun e evs h6 => validate_job_step5_err fs cj f out e evs h1 h2 h3 h4 h5 h6,
       fun evs h6 => validate_job_step5_ok fs cj f out evs h1 h2 h3 h4 h5 h6⟩

theorem C3_witness :
    validate_job ⟨[], [], [], [], [], [], []⟩ ⟨⟨false, ["missing.png"]⟩, some emptyPath, .JPEG⟩ =
      (.error (.Input (.MissingInputFile ⟨false, ["missing.png"]⟩)), []) ∧
    convert ⟨[], [], [], [], [], [], []⟩ ⟨⟨false, ["missing.png"]⟩, some emptyPath, .JPEG⟩ =
      (.failed (.Input (.MissingInputFile ⟨false, ["missing.png"]⟩)), []) :=
  (C3_validate_job_check_order ⟨[], [], [], [], [], [], []⟩
      ⟨⟨false, ["missing.png"]⟩, some emptyPath, .JPEG⟩).1 (by decide)

/-- C7: with an explicit output path, validation fails with `WriteError`
when the path already exists or its parent directory is missing, and with
`PermissionDenied` (carrying the directory) when the probe-file creation
fails; when the output path already exists, `convert` fails and records no
filesystem write at all, leaving the existing file untouched. -/
theorem C7_explicit_output_checks (fs : FS) (cj : ConvertJob) (out : FilePath) :
    (pathExists fs out →
        validate_output_dir fs out = (.error (.WriteError out), [])) ∧
    (¬ pathExists fs out → ¬ pathExists fs ((fsParent out).getD curDir) →
        validate_output_dir fs out = (.error (.WriteError out), [])) ∧
    (¬ pathExists fs out → pathExists fs ((fsParent out).getD curDir) →
        (fsParent out).getD curDir ∈ fs.unwritableDirs →
        validate_output_dir fs out =
          (.error (.PermissionDenied ((fsParent out).getD curDir)), [])) ∧
    (cj.output = some out → pathExists fs out →
        ∃ e, convert fs cj = (.failed e, [])) := by
  refine ⟨validate_output_dir_of_exists fs out,
          validate_output_dir_of_parent_missing fs out,
          validate_output_dir_of_probe_denied fs out, ?_⟩
  intro hsome hex
  cases h1 : validate_path fs cj.input with
  | error e =>
    exact ⟨_, convert_of_validate_err fs cj _ _ (validate_job_step1_err fs cj e h1)⟩
  | ok u =>
    obtain ⟨⟩ := u
    cases h2 : ensure_readable fs cj.input with
    | error e =>
      exact ⟨_, convert_of_validate_err fs cj _ _ (validate_job_step2_err fs cj e h1 h2)⟩
    | ok u =>
      obtain ⟨⟩ := u
      cases h3 : validate_input_format cj.input with
      | error e =>
        exact ⟨_, convert_of_validate_err fs cj _ _ (validate_job_step3_err fs cj e h1 h2 h3)⟩
      | ok f =>
        cases h4 : validate_compatibility f cj.format_type with
        | error e =>
          exact ⟨_, convert_of_validate_err fs cj _ _
            (validate_job_step4_err fs cj f e h1 h2 h3 h4)⟩
        | ok u =>
          obtain ⟨⟩ := u
          have h6 := validate_output_dir_of_exists fs out hex
          exact ⟨_, convert_of_validate_err fs cj _ _
            (validate_job_step5_err fs cj f out _ [] h1 h2 h3 h4 hsome h6)⟩

theorem C7_witness :
    ∃ e, convert ⟨[⟨false, ["photo.png"]⟩, ⟨false, ["out.png"]⟩], [], [], [], [], [], []⟩
        ⟨⟨false, ["photo.png"]⟩, some ⟨false, ["out.png"]⟩, .JPEG⟩ = (.failed e, []) :=
  (C7_explicit_output_checks ⟨[⟨false, ["photo.png"]⟩, ⟨false, ["out.png"]⟩], [], [], [], [], [], []⟩
      ⟨⟨false, ["photo.png"]⟩, some ⟨false, ["out.png"]⟩, .JPEG⟩
      ⟨false, ["out.png"]⟩).2.2.2 rfl (by decide)

lemma derive_output_path_eq (input : FilePath) (t : FormatType) (name : String)
    (h : input.components.getLast? = some name) :
    derive_output_path input t =
      ⟨input.absolute, input.components.dropLast ++
        [fileStemString name ++ "." ++ canonExt t]⟩ := by
  unfold derive_output_path fsSetExtension
  simp only [h]
  cases t <;> simp [canonExt, setExtString]

/-- C6: with no caller-supplied output path, the derived output path keeps
the input's base path and stem, replacing the extension with the target
format's canonical one ("jpg" for JPEG, "png" for PNG); and whenever
`convert` reaches the codec on such a job, the path it will return is
exactly that derived path. -/
theorem C6_derived_output_path (fs : FS) (cj : ConvertJob) :
    (∀ (input : FilePath) (t : FormatType) (name : String),
        input.components.getLast? = some name →
        derive_output_path input t =
          ⟨input.absolute, input.components.dropLast ++
            [fileStemString name ++ "." ++ canonExt t]⟩) ∧
    (canonExt .JPEG = "jpg" ∧ canonExt .PNG = "png") ∧
    (∀ a b out fs2, cj.output = none →
        (convert fs cj).1 = .codecCall a b out fs2 →
        out = derive_output_path cj.input cj.format_type) := by
  refine ⟨derive_output_path_eq, ⟨rfl, rfl⟩, ?_⟩
  intro a b out fs2 hnone h
  have hinv := convert_codecCall_inv fs cj a b out fs2 h
  rw [hinv.2.1]
  unfold resolveOutput
  rw [hnone]
  rfl

theorem C6_witness :
    (⟨false, ["photo.jpg"]⟩ : FilePath) =
      derive_output_path ⟨false, ["photo.png"]⟩ .JPEG :=
  (C6_derived_output_path ⟨[⟨false, ["photo.png"]⟩], [], [], [], [], [], []⟩
      ⟨⟨false, ["photo.png"]⟩, none, .JPEG⟩).2.2 .PNG .JPEG ⟨false, ["photo.jpg"]⟩
      ⟨[⟨false, ["photo.png"]⟩], [], [], [], [], [], []⟩ rfl (by rfl)

/-- C9: when validation succeeds on a job with no caller-supplied output
path, the derived output path differs from the input path: validation
forces the input's extension to belong to the detected format, the pair
check forces the target format to differ from it, and the substituted
canonical extension therefore differs from the input's extension. -/
theorem C9_derived_path_ne_input (fs : FS) (cj : ConvertJob)
    (hnone : cj.output = none)
    (hok : (validate_job fs cj).1 = .ok ()) :
    derive_output_path cj.input cj.format_type ≠ cj.input := by
  obtain ⟨-, -, f, hdetv, hcompat, -⟩ := validate_job_ok_inv fs cj hok
  have hdet : detect_input_format cj.input = .ok f := hdetv
  obtain ⟨e, hext, hclass⟩ := detect_ok_inv cj.input f hdet
  have hpair := validate_compatibility_ok_inv f cj.format_type hcompat
  unfold fsExtension at hext
  cases hname : cj.input.components.getLast? with
  | none => rw [hname] at hext; simp at hext
  | some name =>
    rw [hname] at hext
    obtain ⟨st, ex, hsplit, hstne, he⟩ := strExtension_inv name e hext
    have hderive := derive_output_path_eq cj.input cj.format_type name hname
    have hdata : name.data = st ++ '.' :: ex := splitLastDot_append _ _ _ hsplit
    have hstem : fileStemString name = ⟨st⟩ := by
      unfold fileStemString
      rw [hsplit]
      cases st with
      | nil => exact absurd rfl hstne
      | cons c cs => rfl
    intro heq
    rw [hderive] at heq
    obtain ⟨l2, hl2⟩ := List.getLast?_eq_some_iff.mp hname
    have hdrop : cj.input.components.dropLast = l2 := by
      rw [hl2]
      exact List.dropLast_concat
    have hcomp : l2 ++ [fileStemString name ++ "." ++ canonExt cj.format_type] =
        l2 ++ [name] := by
      have hc := congrArg FilePath.components heq
      simpa [hdrop, hl2] using hc
    have hname_eq : fileStemString name ++ "." ++ canonExt cj.format_type = name := by
      have hc := List.append_cancel_left hcomp
      simpa using hc
    have hd : st ++ '.' :: (canonExt cj.format_type).data = st ++ '.' :: ex := by
      have hc := congrArg String.data hname_eq
      rw [hstem, hdata] at hc
      simpa [String.data_append] using hc
    have hexeq : (canonExt cj.format_type).data = ex := by
      have hc := List.append_cancel_left hd
      simpa using hc
    have hecanon : e = canonExt cj.format_type := by
      rw [he, ← hexeq]
    rcases hpair with ⟨hf, ht⟩ | ⟨hf, ht⟩
    · rw [ht] at hecanon
      rcases hclass with ⟨-, hl⟩ | ⟨hfj, -⟩
      · rw [hecanon] at hl
        exact absurd hl (by decide)
      · rw [hf] at hfj
        simp at hfj
    · rw [ht] at hecanon
      rcases hclass with ⟨hfp, -⟩ | ⟨-, hl⟩
      · rw [hf] at hfp
        simp at hfp
      · rw [hecanon] at hl
        rcases hl with hl | hl <;> exact absurd hl (by decide)

theorem C9_witness :
    derive_output_path ⟨false, ["photo.png"]⟩ .JPEG ≠ ⟨false, ["photo.png"]⟩ :=
  C9_derived_path_ne_input ⟨[⟨false, ["photo.png"]⟩], [], [], [], [], [], []⟩
    ⟨⟨false, ["photo.png"]⟩, none, .JPEG⟩ rfl (by rfl)

/-- C1 (amended): when the job carries a caller-supplied output path, the
resolved output location does not exist immediately before the codec
write begins; for derived output paths `convert` performs no existence
check (see the counterexample for a silent overwrite). -/
theorem C1_no_overwrite_for_explicit_output (fs : FS) (cj : ConvertJob)
    (p : FilePath) (a b : FormatType) (out : FilePath) (fs2 : FS)
    (hsome : cj.output = some p)
    (h : (convert fs cj).1 = .codecCall a b out fs2) :
    ¬ pathExists fs2 out := by
  obtain ⟨hok, hout, evs2, hpd⟩ := convert_codecCall_inv fs cj a b out fs2 h
  obtain ⟨-, -, f, -, -, hdir⟩ := validate_job_ok_inv fs cj hok
  have h5 := hdir p hsome
  have hne : ¬ pathExists fs p := by
    intro hex
    rw [validate_output_dir_of_exists fs p hex] at h5
    simp at h5
  have hre : resolveOutput cj = p := by
    unfold resolveOutput
    rw [hsome]
    rfl
  rw [hout, hre]
  rw [hre] at hpd
  exact ensureParentDir_preserves_not_exists fs p fs2 evs2 hpd hne

theorem C1_witness :
    ¬ pathExists ⟨[⟨true, ["data", "photo.png"]⟩], [⟨true, ["data"]⟩], [], [], [], [], []⟩
      ⟨true, ["data", "res.jpg"]⟩ :=
  C1_no_overwrite_for_explicit_output
    ⟨[⟨true, ["data", "photo.png"]⟩], [⟨true, ["data"]⟩], [], [], [], [], []⟩
    ⟨⟨true, ["data", "photo.png"]⟩, some ⟨true, ["data", "res.jpg"]⟩, .JPEG⟩
    ⟨true, ["data", "res.jpg"]⟩ .PNG .JPEG ⟨true, ["data", "res.jpg"]⟩
    ⟨[⟨true, ["data", "photo.png"]⟩], [⟨true, ["data"]⟩], [], [], [], [], []⟩
    rfl (by rfl)

theorem C1_counterexample :
    (⟨⟨false, ["photo.png"]⟩, none, .JPEG⟩ : ConvertJob).output = none ∧
    pathExists ⟨[⟨false, ["photo.png"]⟩, ⟨false, ["photo.jpg"]⟩], [], [], [], [], [], []⟩
      ⟨false, ["photo.jpg"]⟩ ∧
    (convert ⟨[⟨false, ["photo.png"]⟩, ⟨false, ["photo.jpg"]⟩], [], [], [], [], [], []⟩
        ⟨⟨false, ["photo.png"]⟩, none, .JPEG⟩).1 =
      .codecCall .PNG .JPEG ⟨false, ["photo.jpg"]⟩
        ⟨[⟨false, ["photo.png"]⟩, ⟨false, ["photo.jpg"]⟩], [], [], [], [], [], []⟩ :=
  ⟨rfl, by decide, by rfl⟩
